import Mathlib

/-!
Shallow embedding of the onefuzz ORM layer
(`src/api-service/__app__/onefuzzlib/orm.py`): typed key resolution,
query-filter compilation, client-side post-filtering, record
serialization (`save`) and decoding (`load`), the store dispatch with
optimistic concurrency, and the state-triggered queue / telemetry /
dashboard side effects.

Conventions of the embedding:
* Python exceptions are `Except PyExn`; a returned value is `.ok`.
* Record field values are modelled after the JSON cycle performed by
  `ModelMixin.raw` (UUIDs, enum members and safe-string wrappers are
  already collapsed to their canonical strings there); nested
  pydantic models and dict fields are a structured `JVal`.
* A stored blob column holding the text `json.dumps j` is represented
  by its decoded value `j` (`WireVal.wBlob j`): the Python stdlib
  guarantees `json.loads (json.dumps j) = j` for such values, so the
  text and its decoding carry the same information.
-/

namespace Onefuzz

/-- JSON-representable structured values: the payload of a nested
pydantic model or dict field after the `json` cycle in `ModelMixin.raw`. -/
inductive JVal where
  | jNull
  | jBool (b : Bool)
  | jInt (n : Int)
  | jStr (s : String)
  | jArr (elems : List JVal)
  | jObj (entries : List (String × JVal))

/-- The `KEY` union of orm.py: `Union[int, str, UUID, Enum]`.
`kUUID` carries the canonical textual form, `kEnum` the member name. -/
inductive KEY where
  | kStr (s : String)
  | kUUID (s : String)
  | kEnum (name : String)
  | kInt (n : Int)
  deriving DecidableEq

/-- Python exceptions that the modelled code can raise. -/
inductive PyExn where
  | azureConflict
  | azureMissing
  | keyError
  | valueError
  | typeError
  | notImpl
  | attributeError
  deriving DecidableEq

/-- `resolve` (orm.py:71): typed key to table-store string key. Total on
the `KEY` union: every other type raises, which the type rules out. -/
def resolve : KEY → String
  | .kStr s => s
  | .kUUID s => s
  | .kEnum n => n
  | .kInt n => toString n

/-- Python truthiness of a `KEY` value, as used by the `if RowKey` test
in `ORMMixin.get`: `0` and `""` are falsy; UUIDs and enum members are
always truthy. -/
def keyTruthy : KEY → Bool
  | .kStr s => s != ""
  | .kUUID _ => true
  | .kEnum _ => true
  | .kInt n => n != 0

/-- The key computation of `ORMMixin.get` (orm.py:192-193):
`row_key = resolve(RowKey) if RowKey else partition_key`. -/
def get_row_key (PartitionKey : KEY) (RowKey : Option KEY) : String × String :=
  let partition_key := resolve PartitionKey
  let row_key :=
    match RowKey with
    | some k => if keyTruthy k then resolve k else partition_key
    | none => partition_key
  (partition_key, row_key)

/-- A value appearing in a `QueryFilter` list (the `QUERY_VALUE_TYPES`
union). The string-subclass wrappers `Region`, `Container`, `PoolName`
keep their underlying text; `qEnum` carries the member name. -/
inductive QVal where
  | qInt (n : Int)
  | qStr (s : String)
  | qUUID (s : String)
  | qRegion (s : String)
  | qContainer (s : String)
  | qPoolName (s : String)
  | qEnum (name : String)
  deriving DecidableEq

/-- `isinstance(x, int)` over query values. -/
def QVal.isInt : QVal → Bool
  | .qInt _ => true
  | _ => false

/-- `isinstance(x, Enum)` over query values. -/
def QVal.isEnum : QVal → Bool
  | .qEnum _ => true
  | _ => false

/-- `isinstance(x, SAFE_STRINGS)` with
`SAFE_STRINGS = (UUID, Container, Region, PoolName)` (orm.py:63);
a plain `str` is not an instance of any of them. -/
def QVal.isSafeString : QVal → Bool
  | .qUUID _ => true
  | .qRegion _ => true
  | .qContainer _ => true
  | .qPoolName _ => true
  | _ => false

/-- `str(x)` as used by the `"%s eq '%s'"` formatting for safe strings. -/
def QVal.render : QVal → String
  | .qInt n => toString n
  | .qStr s => s
  | .qUUID s => s
  | .qRegion s => s
  | .qContainer s => s
  | .qPoolName s => s
  | .qEnum n => n

/-- Python `==` between query/row values: the `str` subclasses
(`str`, `Region`, `Container`, `PoolName`) compare equal by their
underlying text; `UUID` and enum members only compare equal to their
own kind. -/
def pyEq (a b : QVal) : Bool :=
  match a, b with
  | .qInt n, .qInt m => n == m
  | .qUUID x, .qUUID y => x == y
  | .qEnum x, .qEnum y => x == y
  | .qInt _, _ => false
  | .qUUID _, _ => false
  | .qEnum _, _ => false
  | _, .qInt _ => false
  | _, .qUUID _ => false
  | _, .qEnum _ => false
  | a, b => a.render == b.render

/-- Per-field serialization class of a record field, computed in the
source by runtime type introspection: plain string (covers `str`,
`UUID`, enum members and the safe-string wrappers after the JSON
cycle), integer, datetime, or nested structured value
(pydantic `BaseModel` / `dict`, blob-encoded for storage). -/
inductive FieldTag where
  | tStr
  | tInt
  | tDt
  | tStruct
  deriving DecidableEq

/-- A domain field value after the JSON cycle of `ModelMixin.raw`.
`fNone` is Python `None` (dropped by `exclude_none=True`). `fDt` is a
datetime carried abstractly by its timestamp. -/
inductive FieldVal where
  | fStr (s : String)
  | fInt (n : Int)
  | fDt (d : Int)
  | fStruct (j : JVal)
  | fNone

/-- A wire-row column value. `wBlob j` stands for the string
`json.dumps j` (see the header comment). -/
inductive WireVal where
  | wStr (s : String)
  | wInt (n : Int)
  | wDt (d : Int)
  | wBlob (j : JVal)

/-- The per-record-type declarations consumed by the engine: field
schema (name and serialization class, in pydantic declaration order),
`key_fields()`, `table_name()`, membership of the table name in
`TelemetryEvent.__members__` and `UpdateType.__members__`, the
`event_include()` / `telemetry_include()` key sets, and the
class-level `needs_work()` set of the state enum (by member name),
`none` when the state type has no `needs_work` attribute. -/
structure Schema where
  fields : List (String × FieldTag)
  pkField : String
  rkField : Option String
  tableName : String
  inTelemetryCatalog : Bool
  updateTypeRegistered : Bool
  eventInclude : List String
  telemetryInclude : List String
  stateNeedsWork : Option (List String)

/-- `cls.__fields__` of an `ORMMixin` subclass: the inherited
`Timestamp` and `etag` fields followed by the domain fields. -/
def Schema.pyFields (s : Schema) : List String :=
  "Timestamp" :: "etag" :: s.fields.map Prod.fst

/-- The store-side column name of a queried field (orm.py:101-106). -/
def storeFieldName (s : Schema) (field : String) : String :=
  if field = s.pkField then "PartitionKey"
  else if s.rkField = some field then "RowKey"
  else field

/-- The integer branch of `build_filters` (orm.py:109-114): every value
must be an `int` or a `TypeError` is raised. -/
def intParts (field_name : String) : List QVal → Except PyExn (List String)
  | [] => .ok []
  | .qInt n :: xs => (intParts field_name xs).map (fun ps => (field_name ++ " eq " ++ toString n) :: ps)
  | _ :: _ => .error .typeError

/-- The enum branch of `build_filters` (orm.py:115-120): every value
must be an `Enum` or a `TypeError` is raised; clauses use the member
name. -/
def enumParts (field_name : String) : List QVal → Except PyExn (List String)
  | [] => .ok []
  | .qEnum nm :: xs => (enumParts field_name xs).map (fun ps => (field_name ++ " eq '" ++ nm ++ "'") :: ps)
  | _ :: _ => .error .typeError

/-- The loop body of `build_filters` (orm.py:94-130), processing the
query fields in order and accumulating server-side clause strings and
residual client-side filters. -/
def build_filters_core (s : Schema) : List (String × List QVal) →
    Except PyExn (List String × List (String × List QVal))
  | [] => .ok ([], [])
  | (field, values) :: rest =>
    if (s.pyFields.contains field) = false then .error .valueError
    else if values.isEmpty then build_filters_core s rest
    else
      let field_name := storeFieldName s field
      let parts : Except PyExn (Option (List String)) :=
        match values.head? with
        | none => .ok none
        | some v =>
          if v.isInt then (intParts field_name values).map some
          else if v.isEnum then (enumParts field_name values).map some
          else if values.all QVal.isSafeString then
            .ok (some (values.map fun x => field_name ++ " eq '" ++ x.render ++ "'"))
          else .ok none
      match parts with
      | .error e => .error e
      | .ok none =>
        match build_filters_core s rest with
        | .error e => .error e
        | .ok (sf, pf) => .ok (sf, (field_name, values) :: pf)
      | .ok (some ps) =>
        match build_filters_core s rest with
        | .error e => .error e
        | .ok (sf, pf) =>
          match ps with
          | [] => .ok (sf, pf)
          | [c] => .ok (c :: sf, pf)
          | _ => .ok (("(" ++ " or ".intercalate ps ++ ")") :: sf, pf)

/-- `build_filters` (orm.py:83-135). -/
def build_filters (s : Schema) (query_args : Option (List (String × List QVal))) :
    Except PyExn (Option String × List (String × List QVal)) :=
  match query_args with
  | none => .ok (none, [])
  | some q =>
    if q.isEmpty then .ok (none, [])
    else
      match build_filters_core s q with
      | .error e => .error e
      | .ok (sf, pf) =>
        if sf.isEmpty then .ok (none, pf)
        else .ok (some (" and ".intercalate sf), pf)

/-- `post_filter` (orm.py:138-148): the residual client-side check
applied to each wire row returned by the server query. -/
def post_filter (value : List (String × QVal))
    (filters : Option (List (String × List QVal))) : Bool :=
  match filters with
  | none => true
  | some fs =>
    if fs.isEmpty then true
    else fs.all fun p =>
      match value.lookup p.1 with
      | none => false
      | some v => p.2.any (pyEq v)

/-- An in-memory record instance: the domain fields (values aligned
with the schema's field list), plus the inherited `etag` and
`Timestamp` fields of `ORMMixin`. The `state` attribute read by the
dispatcher is the domain field named `"state"` (an enum member,
carried by its name). -/
structure Record where
  fields : List (String × FieldVal)
  etag : Option String
  timestamp : Option Int

/-- Whether a field value matches its declared serialization class
(`None` is allowed for every class: the fields are `Optional`). -/
def typeMatch : FieldTag → FieldVal → Bool
  | _, .fNone => true
  | .tStr, .fStr _ => true
  | .tInt, .fInt _ => true
  | .tDt, .fDt _ => true
  | .tStruct, .fStruct _ => true
  | _, _ => false

/-- One column of the wire row under construction in `save`
(orm.py:268-279): `None` fields are dropped by `exclude_none=True`,
non-primitive values are `json.dumps`-encoded, and datetime fields are
then restored to their native value. -/
def serializeField : FieldVal → Option WireVal
  | .fNone => none
  | .fStr s => some (.wStr s)
  | .fInt n => some (.wInt n)
  | .fDt d => some (.wDt d)
  | .fStruct j => some (.wBlob j)

/-- The `raw` dict of `save` after lines 268-279: `Timestamp` and
`etag` (pydantic declaration order) followed by the serialized domain
fields, in declaration order, `None`s dropped. -/
def serializeRaw (r : Record) : List (String × WireVal) :=
  (match r.timestamp with
    | some d => [("Timestamp", WireVal.wDt d)]
    | none => []) ++
  (match r.etag with
    | some e => [("etag", WireVal.wStr e)]
    | none => []) ++
  r.fields.filterMap fun p => (serializeField p.2).map fun w => (p.1, w)

/-- `resolve` applied to a wire value already cycled through JSON
(orm.py:284-285): strings pass through, integers print in decimal, a
blob column is itself a string and passes through as its text, a
native datetime is unsupported by `resolve` and raises. A blob's text
is not separately modelled, so that branch also errors; the theorems
only apply `resolve` to scalar key fields, as the repository's record
types do. -/
def resolveWire : WireVal → Except PyExn String
  | .wStr s => .ok s
  | .wInt n => .ok (toString n)
  | .wDt _ => .error .notImpl
  | .wBlob _ => .error .notImpl

/-- The columns surviving the deletions at orm.py:287-295: the raw
row minus the domain key fields and `Timestamp`. -/
def serializeRest (s : Schema) (r : Record) : List (String × WireVal) :=
  (serializeRaw r).filter fun p =>
    p.1 != s.pkField &&
    (match s.rkField with
      | some rkf => p.1 != rkf
      | none => true) &&
    p.1 != "Timestamp"

/-- Lines 281-295 of `save`: derive the `PartitionKey`/`RowKey`
strings from the (already serialized) domain key fields and delete the
domain key fields and `Timestamp` from the payload. Returns the two
store keys and the remaining columns. -/
def serializeRow (s : Schema) (r : Record) :
    Except PyExn (String × String × List (String × WireVal)) :=
  let raw := serializeRaw r
  let rkName := match s.rkField with
    | some rk => rk
    | none => s.pkField
  match raw.lookup s.pkField with
  | none => .error .keyError
  | some pkW =>
    match resolveWire pkW with
    | .error e => .error e
    | .ok pk =>
      match raw.lookup rkName with
      | none => .error .keyError
      | some rkW =>
        match resolveWire rkW with
        | .error e => .error e
        | .ok rk => .ok (pk, rk, serializeRest s r)

/-- The complete wire row written by `save`: the surviving columns in
insertion order followed by the `PartitionKey` and `RowKey` columns
assigned at lines 284-285. -/
def serialize (s : Schema) (r : Record) : Except PyExn (List (String × WireVal)) :=
  (serializeRow s r).map fun t =>
    t.2.2 ++ [("PartitionKey", WireVal.wStr t.1), ("RowKey", WireVal.wStr t.2.1)]

/-- The pydantic parse of one column back into a typed field value
(`cls.parse_obj` plus the `json.loads` pass of `load`, orm.py:354-378):
a structured field decodes its blob; string fields accept strings (and
coerce integers); integer fields accept integers (and coerce decimal
strings); datetime fields take the native value. -/
def parseVal : FieldTag → WireVal → Except PyExn FieldVal
  | .tStr, .wStr s => .ok (.fStr s)
  | .tStr, .wInt n => .ok (.fStr (toString n))
  | .tInt, .wInt n => .ok (.fInt n)
  | .tInt, .wStr s =>
    match s.toInt? with
    | some n => .ok (.fInt n)
    | none => .error .valueError
  | .tDt, .wDt d => .ok (.fDt d)
  | .tStruct, .wBlob j => .ok (.fStruct j)
  | _, _ => .error .valueError

/-- One step of the field reconstruction in `load`: a column missing
from the row leaves the `Optional` field at `None`. -/
def parseField (data : List (String × WireVal)) (p : String × FieldTag) :
    Except PyExn (String × FieldVal) :=
  match data.lookup p.1 with
  | none => .ok (p.1, .fNone)
  | some w => (parseVal p.2 w).map fun v => (p.1, v)

/-- The field reconstruction loop of `load`, over the schema fields in
declaration order. -/
def parseFields (data : List (String × WireVal)) :
    List (String × FieldTag) → Except PyExn (List (String × FieldVal))
  | [] => .ok []
  | p :: ps =>
    match parseField data p with
    | .error e => .error e
    | .ok v =>
      match parseFields data ps with
      | .error e => .error e
      | .ok vs => .ok (v :: vs)

/-- `ORMMixin.load` (orm.py:333-378): refuse a row that still carries
a domain key column, move `PartitionKey`/`RowKey` into the declared
key fields, decode structured blobs, and re-parse the typed record. -/
def load (s : Schema) (data : List (String × WireVal)) : Except PyExn Record :=
  if (data.lookup s.pkField).isSome then .error .valueError
  else if (match s.rkField with
      | some rkf => (data.lookup rkf).isSome
      | none => false) then .error .valueError
  else
    match data.lookup "PartitionKey" with
    | none => .error .keyError
    | some pkW =>
      match data.lookup "RowKey" with
      | none => .error .keyError
      | some rkW =>
        let data' :=
          (data.filter fun p => p.1 != "PartitionKey" && p.1 != "RowKey") ++
          [(s.pkField, pkW)] ++
          (match s.rkField with
            | some rkf => [(rkf, rkW)]
            | none => [])
        match parseFields data' s.fields with
        | .error e => .error e
        | .ok flds =>
          .ok { fields := flds
                etag := match data'.lookup "etag" with
                  | some (.wStr e) => some e
                  | _ => none
                timestamp := match data'.lookup "Timestamp" with
                  | some (.wDt d) => some d
                  | _ => none }

/-- The table store: rows keyed by `(PartitionKey, RowKey)`, each
holding its columns and its current etag; `counter` drives fresh etag
generation. -/
structure Store where
  rows : List ((String × String) × (List (String × WireVal) × String))
  counter : Nat

/-- Point lookup in the store. -/
def Store.lookupRow (st : Store) (k : String × String) :
    Option (List (String × WireVal) × String) :=
  st.rows.lookup k

/-- The fresh etag the store assigns to a written row. -/
def Store.freshEtag (st : Store) : String :=
  "etag" ++ toString st.counter

/-- `client.insert_entity`: conflict when the key already exists. -/
def insert_entity (st : Store) (k : String × String)
    (row : List (String × WireVal)) : Except PyExn (String × Store) :=
  match st.lookupRow k with
  | some _ => .error .azureConflict
  | none =>
    .ok (st.freshEtag,
      { rows := st.rows ++ [(k, (row, st.freshEtag))], counter := st.counter + 1 })

/-- `client.replace_entity` with `if_match`: missing row raises
not-found; a stored etag different from the presented token raises the
store's conflict; otherwise the row is replaced under a fresh etag. -/
def replace_entity (st : Store) (k : String × String)
    (row : List (String × WireVal)) (if_match : String) :
    Except PyExn (String × Store) :=
  match st.lookupRow k with
  | none => .error .azureMissing
  | some (_, stored) =>
    if stored = if_match then
      .ok (st.freshEtag,
        { rows := st.rows.map fun e => if e.1 = k then (k, (row, st.freshEtag)) else e,
          counter := st.counter + 1 })
    else .error .azureConflict

/-- `client.insert_or_replace_entity`: unconditional upsert. -/
def insert_or_replace_entity (st : Store) (k : String × String)
    (row : List (String × WireVal)) : String × Store :=
  match st.lookupRow k with
  | none =>
    (st.freshEtag,
      { rows := st.rows ++ [(k, (row, st.freshEtag))], counter := st.counter + 1 })
  | some _ =>
    (st.freshEtag,
      { rows := st.rows.map fun e => if e.1 = k then (k, (row, st.freshEtag)) else e,
        counter := st.counter + 1 })

/-- `client.delete_entity`: raises not-found when the row is absent. -/
def delete_entity (st : Store) (k : String × String) : Except PyExn Store :=
  match st.lookupRow k with
  | none => .error .azureMissing
  | some _ => .ok { rows := st.rows.filter fun e => e.1 ≠ k, counter := st.counter }

/-- An observable side effect fired by the engine after a durable
write: a follow-up queue message (`queue_update`), a telemetry push
(`track_event_filtered`), or a dashboard push (`add_event`). -/
inductive Effect where
  | queued (partitionKey rowKey : String) (visibilityTimeout : Nat)
  | telemetryPush (table : String)
  | dashboard (table : String)
  deriving DecidableEq

/-- Whether an effect is a queued follow-up message. -/
def Effect.isQueued : Effect → Bool
  | .queued _ _ _ => true
  | _ => false

/-- `raw(exclude_none=True, include=...)`: the record's fields
restricted to an include set, `None` values dropped. With the default
empty include set the projection is empty. -/
def projection (inc : List String) (r : Record) : List (String × FieldVal) :=
  r.fields.filter fun p =>
    inc.contains p.1 &&
    (match p.2 with
      | .fNone => false
      | _ => true)

/-- `ORMMixin.event` (orm.py:225-226). -/
def eventData (s : Schema) (r : Record) : List (String × FieldVal) :=
  projection s.eventInclude r

/-- `ORMMixin.telemetry` (orm.py:228-229). -/
def telemetryData (s : Schema) (r : Record) : List (String × FieldVal) :=
  projection s.telemetryInclude r

/-- `ORMMixin._event_as_needed` (orm.py:247-253): push the event
projection to the dashboard channel, unless it is empty
(`if not data: return`). -/
def event_as_needed (s : Schema) (r : Record) : List Effect :=
  if (eventData s r).isEmpty then [] else [.dashboard s.tableName]

/-- The telemetry push of `save` (orm.py:310-313): only when the table
name is in the telemetry-event catalog and the projection is
non-empty. -/
def telemetry_as_needed (s : Schema) (r : Record) : List Effect :=
  if s.inTelemetryCatalog then
    if (telemetryData s r).isEmpty then [] else [.telemetryPush s.tableName]
  else []

/-- `getattr(self, "state", None)` followed by reading the member: the
domain field named `state`, an enum member carried by name, or `None`
when the field is absent or unset. -/
def stateOf (r : Record) : Option String :=
  match r.fields.lookup "state" with
  | some (.fStr nm) => some nm
  | _ => none

/-- `ORMMixin.get_keys` (orm.py:255-264): the typed key attribute
values, the row key defaulting to the partition key. -/
def get_keys (s : Schema) (r : Record) : Except PyExn (FieldVal × FieldVal) :=
  match r.fields.lookup s.pkField with
  | none => .error .attributeError
  | some pkv =>
    match s.rkField with
    | some rkf =>
      match r.fields.lookup rkf with
      | none => .error .attributeError
      | some rkv => .ok (pkv, rkv)
    | none => .ok (pkv, pkv)

/-- `resolve` applied to a typed field attribute (as in `get_keys`
consumers): strings (covering UUIDs and enum members after the
canonical collapse) and integers resolve; datetimes, structured values
and `None` raise `NotImplementedError`. -/
def resolveField : FieldVal → Except PyExn String
  | .fStr s => .ok s
  | .fInt n => .ok (toString n)
  | _ => .error .notImpl

/-- `ORMMixin.queue` (orm.py:408-435): raises when the record has no
`state` field or its type has no registered `UpdateType`; otherwise
emits one queue message keyed by the resolved keys. -/
def queueRun (s : Schema) (r : Record) (visibility_timeout : Nat) :
    Except PyExn Effect :=
  if (r.fields.lookup "state").isNone then .error .notImpl
  else if s.updateTypeRegistered = false then .error .notImpl
  else
    match get_keys s r with
    | .error e => .error e
    | .ok (pkv, rkv) =>
      match resolveField pkv with
      | .error e => .error e
      | .ok pk =>
        match resolveField rkv with
        | .error e => .error e
        | .ok rk => .ok (.queued pk rk visibility_timeout)

/-- `ORMMixin._queue_as_needed` (orm.py:231-245): enqueue follow-up
work when the state is in the type's `needs_work` set, with a
30-second visibility delay for `stopping`/`stop`/`shutdown` and a
5-second delay otherwise. -/
def queue_as_needed (s : Schema) (r : Record) : Except PyExn (List Effect) :=
  match stateOf r with
  | none => .ok []
  | some nm =>
    match s.stateNeedsWork with
    | none => .ok []
    | some nw =>
      if (nw.contains nm) = false then .ok []
      else if ["stopping", "stop", "shutdown"].contains nm then
        (queueRun s r 30).map fun e => [e]
      else
        (queueRun s r 5).map fun e => [e]

/-- The post-write tail of `save` (orm.py:309-316): queue dispatch,
then the catalog-gated telemetry push, then the dashboard event. -/
def saveEffects (s : Schema) (r : Record) : Except PyExn (List Effect) :=
  (queue_as_needed s r).map fun q =>
    q ++ telemetry_as_needed s r ++ event_as_needed s r

/-- The structured error value of `onefuzztypes.models.Error`. -/
inductive ErrorCode where
  | UNABLE_TO_CREATE
  deriving DecidableEq

/-- A structured, recoverable error returned (not raised) by `save`. -/
structure Error where
  code : ErrorCode
  errors : List String
  deriving DecidableEq

/-- Python truthiness of the `etag` attribute (`self.etag and ...`). -/
def etagTruthy : Option String → Bool
  | some e => e != ""
  | none => false

/-- The success tail of `save` (orm.py:302-316, after the store
write): record the refreshed in-memory etag and fire the post-write
side effects; effect-stage exceptions propagate. -/
def saveFinish (s : Schema) (r : Record) (etagNew : String) (st2 : Store) :
    Except PyExn (Option Error × Record × Store × List Effect) :=
  match saveEffects s { r with etag := some etagNew } with
  | .error e => .error e
  | .ok effs => .ok (none, { r with etag := some etagNew }, st2, effs)

/-- `ORMMixin.save` (orm.py:266-316). Returns the structured error (or
`none`), the record with its refreshed in-memory etag, the new store,
and the side effects fired after the durable write; store conflicts
outside the guarded insert branch propagate as exceptions. -/
def save (s : Schema) (r : Record) (new require_etag : Bool) (st : Store) :
    Except PyExn (Option Error × Record × Store × List Effect) :=
  match serializeRow s r with
  | .error e => .error e
  | .ok (pk, rk, rest) =>
    let row := rest ++ [("PartitionKey", WireVal.wStr pk), ("RowKey", WireVal.wStr rk)]
    if new then
      match insert_entity st (pk, rk) row with
      | .error .azureConflict =>
        .ok (some { code := .UNABLE_TO_CREATE, errors := ["row exists"] }, r, st, [])
      | .error e => .error e
      | .ok (etagNew, st2) => saveFinish s r etagNew st2
    else if etagTruthy r.etag && require_etag then
      match r.etag with
      | some e =>
        match replace_entity st (pk, rk) row e with
        | .error e2 => .error e2
        | .ok (etagNew, st2) => saveFinish s r etagNew st2
      | none => .error .attributeError
    else
      match insert_or_replace_entity st (pk, rk) row with
      | (etagNew, st2) => saveFinish s r etagNew st2

/-- `ORMMixin.delete` (orm.py:318-331): fire the dashboard event
first, then delete the row, swallowing a not-found result. -/
def delete (s : Schema) (r : Record) (st : Store) :
    Except PyExn (Store × List Effect) :=
  let ev := event_as_needed s r
  match get_keys s r with
  | .error e => .error e
  | .ok (pkv, rkv) =>
    match resolveField pkv with
    | .error e => .error e
    | .ok pk =>
      match resolveField rkv with
      | .error e => .error e
      | .ok rk =>
        match delete_entity st (pk, rk) with
        | .ok st2 => .ok (st2, ev)
        | .error .azureMissing => .ok (st, ev)
        | .error e => .error e

/-- `ORMMixin.get` (orm.py:187-199): resolve the keys (a falsy row key
falls back to the partition key), point-lookup, return `none` on
not-found, decode via `load` otherwise. -/
def get (s : Schema) (st : Store) (PartitionKey : KEY) (RowKey : Option KEY) :
    Except PyExn (Option Record) :=
  let keys := get_row_key PartitionKey RowKey
  match st.lookupRow keys with
  | none => .ok none
  | some (row, _) => (load s row).map some

/-- The structural well-formedness of a record against its type's
schema: fields aligned with the declaration (same names, values of the
declared classes), distinct field names, and no domain field shadowing
a reserved wire column or an inherited `ORMMixin` field. Every
`ORMMixin` subclass of the repository satisfies this by construction
(pydantic enforces the declared types; shadowed reserved names are the
structural error `load` guards against). -/
structure SchemaFits (s : Schema) (r : Record) : Prop where
  nodup : (s.fields.map Prod.fst).Nodup
  align : List.Forall₂
    (fun (a : String × FieldTag) (b : String × FieldVal) =>
      a.1 = b.1 ∧ typeMatch a.2 b.2 = true) s.fields r.fields
  reserved : ∀ p ∈ s.fields, p.1 ∉ (["PartitionKey", "RowKey", "Timestamp", "etag"] : List String)

/-- The key fields of the record are present, set, and string-valued
(the repository's record types key on UUIDs, names and enum members,
all of which are strings after the JSON cycle): the partition key
field holds `pkS` and the row key resolves to `rkS`. -/
structure KeysOk (s : Schema) (r : Record) (pkS rkS : String) : Prop where
  pk : r.fields.lookup s.pkField = some (.fStr pkS)
  rk : (s.rkField = none ∧ rkS = pkS) ∨
       (∃ rkf, s.rkField = some rkf ∧ rkf ≠ s.pkField ∧
         r.fields.lookup rkf = some (.fStr rkS))

/-- A record type used by the concrete witnesses below: a plain
record with a partition key, a work-state field and a free-text
field (the row key defaults to the partition key). -/
def demoSchema : Schema :=
  { fields := [("job_id", .tStr), ("state", .tStr), ("freeText", .tStr)]
    pkField := "job_id", rkField := none, tableName := "Demo"
    inTelemetryCatalog := false, updateTypeRegistered := true
    eventInclude := [], telemetryInclude := [], stateNeedsWork := none }

/-- A richer record type for the witnesses: two key fields, a nested
structured field, an integer field, a datetime field and a work-state
field, with event/telemetry projections declared and the table present
in the telemetry catalog and the update-type registry. -/
def poolSchema : Schema :=
  { fields := [("pool_id", .tStr), ("name", .tStr), ("config", .tStruct),
               ("count", .tInt), ("heartbeat", .tDt), ("state", .tStr)]
    pkField := "pool_id", rkField := some "name", tableName := "Pool"
    inTelemetryCatalog := true, updateTypeRegistered := true
    eventInclude := ["name", "state"], telemetryInclude := ["count"]
    stateNeedsWork := some ["init", "stopping", "shutdown"] }

/-- `poolSchema` with the default (empty) `event_include()` and
`telemetry_include()` of `ORMMixin` (orm.py:219-223). -/
def quietSchema : Schema :=
  { poolSchema with eventInclude := [], telemetryInclude := [] }

/-- A concrete well-formed record of `poolSchema`, in a pending
work-state. -/
def poolRec : Record :=
  { fields := [("pool_id", .fStr "p1"), ("name", .fStr "n1"),
               ("config", .fStruct (.jObj [("a", .jInt 1)])),
               ("count", .fInt 3), ("heartbeat", .fDt 99), ("state", .fStr "init")]
    etag := some "t1", timestamp := some 5 }

/-- `poolRec` moved to the `stopping` work-state. -/
def poolRecStopping : Record :=
  { poolRec with fields := [("pool_id", .fStr "p1"), ("name", .fStr "n1"),
      ("config", .fStruct (.jObj [("a", .jInt 1)])),
      ("count", .fInt 3), ("heartbeat", .fDt 99), ("state", .fStr "stopping")] }

/-- `poolRec` in a settled work-state (not in `needs_work()`). -/
def poolRecDone : Record :=
  { poolRec with fields := [("pool_id", .fStr "p1"), ("name", .fStr "n1"),
      ("config", .fStruct (.jObj [("a", .jInt 1)])),
      ("count", .fInt 3), ("heartbeat", .fDt 99), ("state", .fStr "halt")] }

/-! ### Association-list helper lemmas -/

theorem lookup_append {β : Type} (l1 l2 : List (String × β)) (k : String) :
    (l1 ++ l2).lookup k =
      match l1.lookup k with
      | some v => some v
      | none => l2.lookup k := by
  induction l1 with
  | nil => rfl
  | cons a l ih =>
    obtain ⟨k1, v1⟩ := a
    rw [List.cons_append, List.lookup_cons, List.lookup_cons]
    by_cases h : k = k1
    · subst h
      simp
    · have hb : (k == k1) = false := beq_eq_false_iff_ne.mpr h
      simp only [hb]
      exact ih

theorem lookup_eq_none_of_keys {β : Type} (l : List (String × β)) (k : String)
    (h : ∀ p ∈ l, p.1 ≠ k) : l.lookup k = none :=
  List.lookup_eq_none_iff.mpr fun p hp => bne_iff_ne.mpr fun he => h p hp he.symm

theorem lookup_filter_key {β : Type} (l : List (String × β)) (q : String → Bool) (k : String) :
    (l.filter fun p => q p.1).lookup k = if q k then l.lookup k else none := by
  induction l with
  | nil => simp
  | cons a l ih =>
    obtain ⟨k1, v1⟩ := a
    rw [List.filter_cons]
    by_cases hk : k = k1
    · subst hk
      by_cases hq : q k
      · simp [hq, List.lookup_cons]
      · simp [hq, ih]
    · have hb : (k == k1) = false := beq_eq_false_iff_ne.mpr hk
      by_cases hq : q k1
      · simp [hq, List.lookup_cons, hb, ih]
      · simp [hq, ih, List.lookup_cons, hb]

theorem lookup_some_mem {β : Type} {l : List (String × β)} {k : String} {v : β}
    (h : l.lookup k = some v) : (k, v) ∈ l := by
  induction l with
  | nil => exact absurd h (by simp)
  | cons a l ih =>
    obtain ⟨k1, v1⟩ := a
    rw [List.lookup_cons] at h
    by_cases hk : k = k1
    · subst hk
      simp only [beq_self_eq_true] at h
      cases h
      exact List.mem_cons_self _ _
    · have hb : (k == k1) = false := beq_eq_false_iff_ne.mpr hk
      simp only [hb] at h
      exact List.mem_cons_of_mem _ (ih h)

theorem lookup_filter_eq_self {β : Type} {l : List (String × β)} {q : String × β → Bool}
    (h : ∀ p ∈ l, q p = true) : l.filter q = l :=
  List.filter_eq_self.mpr h

theorem forall₂_mem {α β : Type} {R : α → β → Prop} :
    ∀ {l1 : List α} {l2 : List β}, List.Forall₂ R l1 l2 →
      List.Forall₂ (fun a b => R a b ∧ a ∈ l1 ∧ b ∈ l2) l1 l2 := by
  intro l1 l2 h
  induction h with
  | nil => exact .nil
  | @cons a b l1' l2' hab htl ih =>
    refine .cons ⟨hab, List.mem_cons_self _ _, List.mem_cons_self _ _⟩ (ih.imp ?_)
    rintro x y ⟨h1, h2, h3⟩
    exact ⟨h1, List.mem_cons_of_mem _ h2, List.mem_cons_of_mem _ h3⟩

theorem forall₂_map_fst {α β δ : Type} {R : α × β → α × δ → Prop}
    (hR : ∀ a b, R a b → a.1 = b.1) :
    ∀ {l1 : List (α × β)} {l2 : List (α × δ)}, List.Forall₂ R l1 l2 →
      l1.map Prod.fst = l2.map Prod.fst := by
  intro l1 l2 h
  induction h with
  | nil => rfl
  | cons hab htl ih => simp only [List.map_cons, hR _ _ hab, ih]

theorem align_keys {s : Schema} {r : Record}
    (halign : List.Forall₂
      (fun (a : String × FieldTag) (b : String × FieldVal) =>
        a.1 = b.1 ∧ typeMatch a.2 b.2 = true) s.fields r.fields) :
    s.fields.map Prod.fst = r.fields.map Prod.fst :=
  forall₂_map_fst (fun _ _ hab => hab.1) halign

theorem lookup_self_of_nodup {β : Type} :
    ∀ {l : List (String × β)}, (l.map Prod.fst).Nodup →
      ∀ p ∈ l, l.lookup p.1 = some p.2 := by
  intro l
  induction l with
  | nil => intro _ p hp; simp at hp
  | cons a l ih =>
    intro hnd p hp
    obtain ⟨k1, v1⟩ := a
    rw [List.map_cons, List.nodup_cons] at hnd
    rw [List.lookup_cons]
    rcases List.mem_cons.mp hp with h | h
    · cases h
      simp
    · have hne : p.1 ≠ k1 := by
        intro he
        have hm : p.1 ∈ l.map Prod.fst := List.mem_map_of_mem Prod.fst h
        exact hnd.1 (he ▸ hm)
      have hb : (p.1 == k1) = false := beq_eq_false_iff_ne.mpr hne
      simp only [hb]
      exact ih hnd.2 p h

/-! ### C10: falsy row keys in `get` -/

/-- C10 (confirmed): `get` treats any falsy row key, not only an
absent one, as missing — with `RowKey = 0` or `RowKey = ""` the
lookup behaves exactly as with no row key at all, using the resolved
partition key as row key, whereas a truthy row key is resolved
itself. -/
theorem get_falsy_rowkey (s : Schema) (st : Store) (pk : KEY) :
    get s st pk (some (.kInt 0)) = get s st pk none ∧
    get s st pk (some (.kStr "")) = get s st pk none ∧
    get_row_key pk (some (.kInt 0)) = (resolve pk, resolve pk) ∧
    get_row_key pk (some (.kStr "")) = (resolve pk, resolve pk) ∧
    get_row_key pk (some (.kInt 7)) = (resolve pk, "7") ∧
    get_row_key pk (some (.kStr "r")) = (resolve pk, "r") :=
  ⟨rfl, rfl, rfl, rfl, rfl, rfl⟩

/-! ### C6: the residual post-filter -/

/-- C6 (confirmed): the post-filter accepts a row iff every residual
field is present on the row with a value belonging to that field's
allowed-value list; a row missing a residual field is rejected, and an
absent (`none`) or empty residual set accepts every row. -/
theorem post_filter_characterization (row : List (String × QVal))
    (fs : List (String × List QVal)) :
    post_filter row none = true ∧
    (post_filter row (some fs) = true ↔
      ∀ p ∈ fs, ∃ v, row.lookup p.1 = some v ∧ p.2.any (pyEq v) = true) := by
  refine ⟨rfl, ?_⟩
  have hall : post_filter row (some fs) = fs.all fun p =>
      match row.lookup p.1 with
      | none => false
      | some v => p.2.any (pyEq v) := by
    cases fs with
    | nil => rfl
    | cons a l => rfl
  rw [hall, List.all_eq_true]
  constructor
  · intro h p hp
    have hl := h p hp
    cases hlk : row.lookup p.1 with
    | none => rw [hlk] at hl; exact absurd hl (by simp)
    | some v => rw [hlk] at hl; exact ⟨v, rfl, hl⟩
  · intro h p hp
    obtain ⟨v, hv, ha⟩ := h p hp
    rw [hv]
    exact ha

/-! ### C5: concrete filter compilations -/

/-- C5 (confirmed): compiling a two-enum constraint yields exactly the
parenthesized OR-group `(state eq 'A' or state eq 'B')` with an empty
residual set; compiling a free-text constraint containing a space
yields no server expression and the residual filter keyed by the
field; and a multi-field query joins per-field groups with `and`,
parenthesizing only groups of more than one clause. -/
theorem build_filters_examples :
    build_filters demoSchema (some [("state", [.qEnum "A", .qEnum "B"])]) =
      .ok (some "(state eq 'A' or state eq 'B')", []) ∧
    build_filters demoSchema (some [("freeText", [.qStr "contains space"])]) =
      .ok (none, [("freeText", [.qStr "contains space"])]) ∧
    build_filters demoSchema
        (some [("state", [.qEnum "A", .qEnum "B"]), ("freeText", [.qStr "x y"])]) =
      .ok (some "(state eq 'A' or state eq 'B')", [("freeText", [.qStr "x y"])]) ∧
    build_filters demoSchema (some [("state", [.qEnum "A"])]) =
      .ok (some "state eq 'A'", []) := by
  refine ⟨by rfl, by rfl, by rfl, by rfl⟩

/-! ### C4: classification of non-uniform value lists -/

theorem intParts_error {field_name : String} :
    ∀ {values : List QVal}, values.all QVal.isInt = false →
      intParts field_name values = .error .typeError := by
  intro values
  induction values with
  | nil => intro h; simp at h
  | cons v vs ih =>
    intro h
    rw [List.all_cons] at h
    cases v with
    | qInt n =>
      simp only [QVal.isInt, Bool.true_and] at h
      simp only [intParts, ih h]
      rfl
    | qStr s => rfl
    | qUUID s => rfl
    | qRegion s => rfl
    | qContainer s => rfl
    | qPoolName s => rfl
    | qEnum n => rfl

theorem enumParts_error {field_name : String} :
    ∀ {values : List QVal}, values.all QVal.isEnum = false →
      enumParts field_name values = .error .typeError := by
  intro values
  induction values with
  | nil => intro h; simp at h
  | cons v vs ih =>
    intro h
    rw [List.all_cons] at h
    cases v with
    | qEnum n =>
      simp only [QVal.isEnum, Bool.true_and] at h
      simp only [enumParts, ih h]
      rfl
    | qStr s => rfl
    | qUUID s => rfl
    | qRegion s => rfl
    | qContainer s => rfl
    | qPoolName s => rfl
    | qInt n => rfl

/-- C4 counterexample: the claim asserts that a value list mixing an
integer or enum first element with values of other types is deferred
to the residual filters and that compilation succeeds for any value
list over the supported types; in fact `build_filters` raises
`TypeError` on both mixed lists. -/
theorem build_filters_mixed_raises :
    build_filters demoSchema (some [("state", [.qInt 1, .qStr "x"])]) =
      .error .typeError ∧
    build_filters demoSchema (some [("state", [.qEnum "A", .qStr "x"])]) =
      .error .typeError := by
  exact ⟨by rfl, by rfl⟩

/-- C4 (corrected): a known field whose allowed-value list is not
uniformly server-safe is deferred to the residual client-side filters,
keyed by the store-side field name, and compilation succeeds — but
only when the list's first element is neither an integer nor an
enumerated value; if the first element is an integer (resp. enum) and
the rest are not uniformly integers (resp. enums), compilation raises
`TypeError` instead of deferring. -/
theorem build_filters_residual (s : Schema) (field : String)
    (values : List QVal) (v : QVal)
    (hf : s.pyFields.contains field = true)
    (hv : values.head? = some v) :
    ((v.isInt = false ∧ v.isEnum = false ∧ values.all QVal.isSafeString = false) →
      build_filters s (some [(field, values)]) =
        .ok (none, [(storeFieldName s field, values)])) ∧
    ((v.isInt = true ∧ values.all QVal.isInt = false) →
      build_filters s (some [(field, values)]) = .error .typeError) ∧
    ((v.isEnum = true ∧ values.all QVal.isEnum = false) →
      build_filters s (some [(field, values)]) = .error .typeError) := by
  cases values with
  | nil => exact absurd hv (by simp)
  | cons v0 vs =>
    have hv0 : v0 = v := by
      simpa using hv
    subst hv0
    refine ⟨?_, ?_, ?_⟩
    · rintro ⟨h1, h2, h3⟩
      simp only [build_filters, build_filters_core, hf, List.isEmpty_cons, List.head?,
        h1, h2, h3, Bool.false_eq_true, if_false, if_true]
      rfl
    · rintro ⟨h1, h2⟩
      have := @intParts_error (storeFieldName s field) (v0 :: vs) h2
      simp only [build_filters, build_filters_core, hf, List.head?, h1,
        if_true, this]
      rfl
    · rintro ⟨h1, h2⟩
      have hni : v0.isInt = false := by
        cases v0 <;> first | rfl | (exact absurd h1 (by simp [QVal.isEnum]))
      have := @enumParts_error (storeFieldName s field) (v0 :: vs) h2
      simp only [build_filters, build_filters_core, hf, List.head?, h1, hni,
        if_true, Bool.false_eq_true, if_false, this]
      rfl

/-! ### Serialization lemmas for the round trip -/

theorem lookup_append_some {β : Type} {l1 l2 : List (String × β)} {k : String} {v : β}
    (h : l1.lookup k = some v) : (l1 ++ l2).lookup k = some v := by
  rw [lookup_append, h]

theorem lookup_append_none {β : Type} {l1 l2 : List (String × β)} {k : String}
    (h : l1.lookup k = none) : (l1 ++ l2).lookup k = l2.lookup k := by
  rw [lookup_append, h]

theorem lookup_singleton_ne {β : Type} {k1 k : String} {v : β} (h : k ≠ k1) :
    ([(k1, v)] : List (String × β)).lookup k = none := by
  rw [List.lookup_cons]
  simp [beq_eq_false_iff_ne.mpr h]

theorem lookup_singleton_self {β : Type} (k : String) (v : β) :
    ([(k, v)] : List (String × β)).lookup k = some v := by
  rw [List.lookup_cons]
  simp

theorem serialized_keys_sub {rf : List (String × FieldVal)} {p : String × WireVal}
    (hp : p ∈ rf.filterMap fun q => (serializeField q.2).map fun w => (q.1, w)) :
    p.1 ∈ rf.map Prod.fst := by
  obtain ⟨q, hq, hmap⟩ := List.mem_filterMap.mp hp
  obtain ⟨w, _, heq⟩ := Option.map_eq_some'.mp hmap
  cases heq
  exact List.mem_map_of_mem Prod.fst hq

theorem lookup_serialized :
    ∀ {rf : List (String × FieldVal)}, (rf.map Prod.fst).Nodup →
      ∀ {n : String} {v : FieldVal}, rf.lookup n = some v →
        (rf.filterMap fun q => (serializeField q.2).map fun w => (q.1, w)).lookup n
          = serializeField v := by
  intro rf
  induction rf with
  | nil => intro _ n v h; exact absurd h (by simp)
  | cons a l ih =>
    intro hnd n v h
    obtain ⟨k1, v1⟩ := a
    rw [List.map_cons, List.nodup_cons] at hnd
    rw [List.lookup_cons] at h
    rw [List.filterMap_cons]
    by_cases hkk : n = k1
    · subst hkk
      simp only [beq_self_eq_true] at h
      cases h
      cases hv1 : serializeField v with
      | some w => simp [hv1, List.lookup_cons]
      | none =>
        simp only [hv1]
        exact lookup_eq_none_of_keys _ _ fun p hp hpn =>
          hnd.1 (hpn ▸ serialized_keys_sub hp)
    · have hb : (n == k1) = false := beq_eq_false_iff_ne.mpr hkk
      simp only [hb] at h
      cases hv1 : serializeField v1 with
      | some w =>
        simp only [hv1, Option.map_some', List.lookup_cons, hb]
        exact ih hnd.2 h
      | none =>
        simp only [hv1]
        exact ih hnd.2 h

theorem reserved_not_key {s : Schema} {r : Record} (hfit : SchemaFits s r)
    {n : String} (hres : n ∈ (["PartitionKey", "RowKey", "Timestamp", "etag"] : List String)) :
    n ∉ r.fields.map Prod.fst := by
  intro hm
  rw [← align_keys hfit.align] at hm
  obtain ⟨p, hp, he⟩ := List.mem_map.mp hm
  exact hfit.reserved p hp (he ▸ hres)

theorem fits_key_not_reserved {s : Schema} {r : Record} (hfit : SchemaFits s r)
    {n : String} {v : FieldVal} (h : r.fields.lookup n = some v) :
    n ∉ (["PartitionKey", "RowKey", "Timestamp", "etag"] : List String) := by
  intro hres
  have hm : (n, v) ∈ r.fields := lookup_some_mem h
  exact reserved_not_key hfit hres (List.mem_map_of_mem Prod.fst hm)

theorem fits_nodup_record {s : Schema} {r : Record} (hfit : SchemaFits s r) :
    (r.fields.map Prod.fst).Nodup :=
  align_keys hfit.align ▸ hfit.nodup

theorem lookup_ts_part {r : Record} {n : String} (hts : n ≠ "Timestamp") :
    (match r.timestamp with
      | some d => [("Timestamp", WireVal.wDt d)]
      | none => ([] : List (String × WireVal))).lookup n = none := by
  cases r.timestamp with
  | none => rfl
  | some d => exact lookup_singleton_ne hts

theorem lookup_etag_part {r : Record} {n : String} (het : n ≠ "etag") :
    (match r.etag with
      | some e => [("etag", WireVal.wStr e)]
      | none => ([] : List (String × WireVal))).lookup n = none := by
  cases r.etag with
  | none => rfl
  | some e => exact lookup_singleton_ne het

theorem lookup_raw {s : Schema} {r : Record} (hfit : SchemaFits s r)
    {n : String} {v : FieldVal} (h : r.fields.lookup n = some v) :
    (serializeRaw r).lookup n = serializeField v := by
  have hnores := fits_key_not_reserved hfit h
  have hts : n ≠ "Timestamp" := fun he => hnores (by rw [he]; simp)
  have het : n ≠ "etag" := fun he => hnores (by rw [he]; simp)
  unfold serializeRaw
  rw [lookup_append_none (by rw [lookup_append_none (lookup_ts_part hts)]; exact lookup_etag_part het)]
  exact lookup_serialized (fits_nodup_record hfit) h

theorem lookup_raw_none {s : Schema} {r : Record} (_hfit : SchemaFits s r)
    {n : String} (hts : n ≠ "Timestamp") (het : n ≠ "etag")
    (hdom : n ∉ r.fields.map Prod.fst) :
    (serializeRaw r).lookup n = none := by
  unfold serializeRaw
  rw [lookup_append_none (by rw [lookup_append_none (lookup_ts_part hts)]; exact lookup_etag_part het)]
  exact lookup_eq_none_of_keys _ _ fun p hp hpn => hdom (hpn ▸ serialized_keys_sub hp)

theorem lookup_raw_etag {s : Schema} {r : Record} (hfit : SchemaFits s r) :
    (serializeRaw r).lookup "etag" =
      match r.etag with
      | some e => some (WireVal.wStr e)
      | none => none := by
  unfold serializeRaw
  cases het : r.etag with
  | some e =>
    exact lookup_append_some (by
      rw [lookup_append_none (lookup_ts_part (by decide))]
      exact lookup_singleton_self _ _)
  | none =>
    rw [lookup_append_none (by
      rw [lookup_append_none (lookup_ts_part (by decide))]
      rfl)]
    exact lookup_eq_none_of_keys _ _ fun p hp hpn =>
      reserved_not_key hfit (by simp) (hpn ▸ serialized_keys_sub hp)

theorem mem_serializeRaw {r : Record} {p : String × WireVal} (hp : p ∈ serializeRaw r) :
    p.1 = "Timestamp" ∨ p.1 = "etag" ∨ p.1 ∈ r.fields.map Prod.fst := by
  unfold serializeRaw at hp
  rcases List.mem_append.mp hp with h | h
  · rcases List.mem_append.mp h with h2 | h2
    · left
      cases hts : r.timestamp with
      | none => rw [hts] at h2; exact absurd h2 (by simp)
      | some d => rw [hts] at h2; simp at h2; rw [h2]
    · right; left
      cases het : r.etag with
      | none => rw [het] at h2; exact absurd h2 (by simp)
      | some e => rw [het] at h2; simp at h2; rw [h2]
  · right; right
    exact serialized_keys_sub h

theorem lookup_serializeRest (s : Schema) (r : Record) (k : String) :
    (serializeRest s r).lookup k =
      if (k != s.pkField &&
          (match s.rkField with
            | some rkf => k != rkf
            | none => true) &&
          k != "Timestamp")
      then (serializeRaw r).lookup k else none := by
  unfold serializeRest
  exact lookup_filter_key (serializeRaw r)
    (fun k => (k != s.pkField &&
      (match s.rkField with
        | some rkf => k != rkf
        | none => true) &&
      k != "Timestamp")) k

theorem serializeRest_pk_none (s : Schema) (r : Record) :
    (serializeRest s r).lookup s.pkField = none := by
  rw [lookup_serializeRest]
  simp

theorem serializeRest_rkf_none (s : Schema) (r : Record) {rkf : String}
    (hsome : s.rkField = some rkf) :
    (serializeRest s r).lookup rkf = none := by
  rw [lookup_serializeRest, hsome]
  simp

theorem serializeRest_other {s : Schema} {r : Record} {k : String}
    (hpk : k ≠ s.pkField)
    (hrk : ∀ rkf, s.rkField = some rkf → k ≠ rkf)
    (hts : k ≠ "Timestamp") :
    (serializeRest s r).lookup k = (serializeRaw r).lookup k := by
  rw [lookup_serializeRest]
  have h1 : (k != s.pkField) = true := bne_iff_ne.mpr hpk
  have h3 : (k != "Timestamp") = true := bne_iff_ne.mpr hts
  cases hrf : s.rkField with
  | none => simp [h1, h3]
  | some rkf =>
    have h2 : (k != rkf) = true := bne_iff_ne.mpr (hrk rkf hrf)
    simp [h1, h2, h3]

theorem serializeRow_ok {s : Schema} {r : Record} {pkS rkS : String}
    (hfit : SchemaFits s r) (hk : KeysOk s r pkS rkS) :
    serializeRow s r = .ok (pkS, rkS, serializeRest s r) := by
  have hpk : (serializeRaw r).lookup s.pkField = some (.wStr pkS) := by
    rw [lookup_raw hfit hk.pk]
    rfl
  rcases hk.rk with ⟨hnone, hrkS⟩ | ⟨rkf, hsome, hne, hlook⟩
  · subst hrkS
    simp only [serializeRow, hnone, hpk, resolveWire]
  · have hrk : (serializeRaw r).lookup rkf = some (.wStr rkS) := by
      rw [lookup_raw hfit hlook]
      rfl
    simp only [serializeRow, hsome, hpk, hrk, resolveWire]

theorem serialize_ok {s : Schema} {r : Record} {pkS rkS : String}
    (hfit : SchemaFits s r) (hk : KeysOk s r pkS rkS) :
    serialize s r = .ok (serializeRest s r ++
      [("PartitionKey", WireVal.wStr pkS), ("RowKey", WireVal.wStr rkS)]) := by
  unfold serialize
  rw [serializeRow_ok hfit hk]
  rfl

theorem parseVal_serializeField {tag : FieldTag} {v : FieldVal} {w : WireVal}
    (htm : typeMatch tag v = true) (hw : serializeField v = some w) :
    parseVal tag w = .ok v := by
  cases v <;> cases tag <;> simp_all [typeMatch, serializeField, parseVal]
  all_goals (subst hw; rfl)

theorem serializeField_none {v : FieldVal} (hv : serializeField v = none) :
    v = .fNone := by
  cases v <;> simp_all [serializeField]

theorem parseFields_ok {data : List (String × WireVal)} :
    ∀ {ss : List (String × FieldTag)} {rs : List (String × FieldVal)},
      List.Forall₂ (fun a b => parseField data a = .ok b) ss rs →
      parseFields data ss = .ok rs := by
  intro ss rs h
  induction h with
  | nil => rfl
  | cons hab _ ih => simp only [parseFields, hab, ih]

theorem parseField_roundtrip {s : Schema} {r : Record} {pkS rkS : String}
    (hfit : SchemaFits s r) (hk : KeysOk s r pkS rkS)
    {a : String × FieldTag} {b : String × FieldVal}
    (hname : a.1 = b.1) (htm : typeMatch a.2 b.2 = true)
    (hb : b ∈ r.fields) :
    parseField
      (serializeRest s r ++ [(s.pkField, WireVal.wStr pkS)] ++
        (match s.rkField with
          | some rkf => [(rkf, WireVal.wStr rkS)]
          | none => [])) a = .ok b := by
  obtain ⟨n, tag⟩ := a
  obtain ⟨n', v⟩ := b
  simp only at hname htm
  subst hname
  have hlook_self : r.fields.lookup n = some v :=
    lookup_self_of_nodup (fits_nodup_record hfit) _ hb
  have hnres := fits_key_not_reserved hfit hlook_self
  have hnTS : n ≠ "Timestamp" := fun he => hnres (by rw [he]; simp)
  unfold parseField
  by_cases hpk : n = s.pkField
  · subst hpk
    have hv : v = .fStr pkS := by
      have h2 := hk.pk
      rw [hlook_self] at h2
      exact Option.some.inj h2
    subst hv
    have htag : tag = .tStr := by
      cases tag
      · rfl
      · exact absurd htm (by simp [typeMatch])
      · exact absurd htm (by simp [typeMatch])
      · exact absurd htm (by simp [typeMatch])
    subst htag
    have h2 : ((serializeRest s r) ++ [(s.pkField, WireVal.wStr pkS)]).lookup s.pkField
        = some (.wStr pkS) := by
      rw [lookup_append_none (serializeRest_pk_none s r)]
      exact lookup_singleton_self _ _
    rw [lookup_append_some h2]
    rfl
  · rcases hk.rk with ⟨hnone, hrkS⟩ | ⟨rkf2, hsome, hne, hlook⟩
    · -- row key field absent: a plain non-key field
      have h1 : (serializeRest s r).lookup n = (serializeRaw r).lookup n :=
        serializeRest_other hpk
          (fun rkf h => absurd (hnone ▸ h) (by simp)) hnTS
      rw [lookup_raw hfit hlook_self] at h1
      cases hsv : serializeField v with
      | some w =>
        rw [hsv] at h1
        rw [lookup_append_some (lookup_append_some h1)]
        show Except.map (fun v => (n, v)) (parseVal tag w) = .ok (n, v)
        rw [parseVal_serializeField htm hsv]
        rfl
      | none =>
        rw [hsv] at h1
        cases serializeField_none hsv
        have hAB : ((serializeRest s r) ++ [(s.pkField, WireVal.wStr pkS)]).lookup n
            = none := by
          rw [lookup_append_none h1]
          exact lookup_singleton_ne hpk
        rw [lookup_append_none hAB, hnone]
        rfl
    · by_cases hrkn : n = rkf2
      · -- the row key field itself
        subst hrkn
        have hv : v = .fStr rkS := by
          have h2 := hlook
          rw [hlook_self] at h2
          exact Option.some.inj h2
        subst hv
        have htag : tag = .tStr := by
          cases tag
          · rfl
          · exact absurd htm (by simp [typeMatch])
          · exact absurd htm (by simp [typeMatch])
          · exact absurd htm (by simp [typeMatch])
        subst htag
        have hAB : ((serializeRest s r) ++ [(s.pkField, WireVal.wStr pkS)]).lookup n
            = none := by
          rw [lookup_append_none (serializeRest_rkf_none s r hsome)]
          exact lookup_singleton_ne hpk
        have h3 : (match s.rkField with
            | some rkf => [(rkf, WireVal.wStr rkS)]
            | none => ([] : List (String × WireVal))).lookup n
            = some (.wStr rkS) := by
          rw [hsome]
          exact lookup_singleton_self _ _
        rw [lookup_append_none hAB, h3]
        rfl
      · -- a plain non-key field beside a declared row key field
        have h1 : (serializeRest s r).lookup n = (serializeRaw r).lookup n :=
          serializeRest_other hpk
            (fun rkf3 h3 => by
              rw [hsome] at h3
              exact (Option.some.inj h3) ▸ hrkn) hnTS
        rw [lookup_raw hfit hlook_self] at h1
        cases hsv : serializeField v with
        | some w =>
          rw [hsv] at h1
          rw [lookup_append_some (lookup_append_some h1)]
          show Except.map (fun v => (n, v)) (parseVal tag w) = .ok (n, v)
          rw [parseVal_serializeField htm hsv]
          rfl
        | none =>
          rw [hsv] at h1
          cases serializeField_none hsv
          have hAB : ((serializeRest s r) ++ [(s.pkField, WireVal.wStr pkS)]).lookup n
              = none := by
            rw [lookup_append_none h1]
            exact lookup_singleton_ne hpk
          have h3 : (match s.rkField with
              | some rkf => [(rkf, WireVal.wStr rkS)]
              | none => ([] : List (String × WireVal))).lookup n = none := by
            rw [hsome]
            exact lookup_singleton_ne hrkn
          rw [lookup_append_none hAB, h3]

theorem fits_rkf_not_reserved {s : Schema} {r : Record} {pkS rkS : String}
    (hfit : SchemaFits s r) (hk : KeysOk s r pkS rkS) {rkf : String}
    (h : s.rkField = some rkf) :
    rkf ∉ (["PartitionKey", "RowKey", "Timestamp", "etag"] : List String) := by
  rcases hk.rk with ⟨hn, _⟩ | ⟨rkf2, hs, _, hl⟩
  · rw [hn] at h
    exact absurd h (by simp)
  · rw [hs] at h
    cases Option.some.inj h
    exact fits_key_not_reserved hfit hl

theorem serializeRest_PK_none {s : Schema} {r : Record} {pkS rkS : String}
    (hfit : SchemaFits s r) (hk : KeysOk s r pkS rkS) :
    (serializeRest s r).lookup "PartitionKey" = none := by
  rw [serializeRest_other
    (fun he => fits_key_not_reserved hfit hk.pk (he ▸ by simp))
    (fun rkf h he => fits_rkf_not_reserved hfit hk h (he ▸ by simp))
    (by decide)]
  exact lookup_raw_none hfit (by decide) (by decide) (reserved_not_key hfit (by simp))

theorem serializeRest_RK_none {s : Schema} {r : Record} {pkS rkS : String}
    (hfit : SchemaFits s r) (hk : KeysOk s r pkS rkS) :
    (serializeRest s r).lookup "RowKey" = none := by
  rw [serializeRest_other
    (fun he => fits_key_not_reserved hfit hk.pk (he ▸ by simp))
    (fun rkf h he => fits_rkf_not_reserved hfit hk h (he ▸ by simp))
    (by decide)]
  exact lookup_raw_none hfit (by decide) (by decide) (reserved_not_key hfit (by simp))

theorem serializeRest_ET {s : Schema} {r : Record} {pkS rkS : String}
    (hfit : SchemaFits s r) (hk : KeysOk s r pkS rkS) :
    (serializeRest s r).lookup "etag" =
      match r.etag with
      | some e => some (WireVal.wStr e)
      | none => none := by
  rw [serializeRest_other
    (fun he => fits_key_not_reserved hfit hk.pk (he ▸ by simp))
    (fun rkf h he => fits_rkf_not_reserved hfit hk h (he ▸ by simp))
    (by decide)]
  exact lookup_raw_etag hfit

theorem serializeRest_TS_none (s : Schema) (r : Record) :
    (serializeRest s r).lookup "Timestamp" = none := by
  rw [lookup_serializeRest]
  simp

theorem pair_lookup_none {pkS rkS k : String}
    (h1 : k ≠ "PartitionKey") (h2 : k ≠ "RowKey") :
    ([("PartitionKey", WireVal.wStr pkS), ("RowKey", WireVal.wStr rkS)] :
      List (String × WireVal)).lookup k = none := by
  rw [List.lookup_cons]
  simp only [beq_eq_false_iff_ne.mpr h1]
  exact lookup_singleton_ne h2

theorem filter_serializeRest_pkrk {s : Schema} {r : Record} {pkS rkS : String}
    (hfit : SchemaFits s r) (_hk : KeysOk s r pkS rkS) :
    ((serializeRest s r ++
        [("PartitionKey", WireVal.wStr pkS), ("RowKey", WireVal.wStr rkS)]).filter
      fun p => p.1 != "PartitionKey" && p.1 != "RowKey") = serializeRest s r := by
  rw [List.filter_append]
  have hl : (serializeRest s r).filter
      (fun p => p.1 != "PartitionKey" && p.1 != "RowKey") = serializeRest s r := by
    apply lookup_filter_eq_self
    intro p hp
    have hmem := List.mem_filter.mp hp
    have hcond := hmem.2
    have hmemRaw := hmem.1
    have hts : (p.1 != "Timestamp") = true := by
      simp only [Bool.and_eq_true] at hcond
      exact hcond.2
    rcases mem_serializeRaw hmemRaw with h | h | h
    · exact absurd h (bne_iff_ne.mp hts)
    · rw [h]
      decide
    · have h1 : p.1 ≠ "PartitionKey" := fun he =>
        reserved_not_key hfit (by simp) (he ▸ h)
      have h2 : p.1 ≠ "RowKey" := fun he =>
        reserved_not_key hfit (by simp) (he ▸ h)
      simp only [Bool.and_eq_true]
      exact ⟨bne_iff_ne.mpr h1, bne_iff_ne.mpr h2⟩
  have hr : ([("PartitionKey", WireVal.wStr pkS), ("RowKey", WireVal.wStr rkS)] :
      List (String × WireVal)).filter
      (fun p => p.1 != "PartitionKey" && p.1 != "RowKey") = [] := rfl
  rw [hl, hr, List.append_nil]

theorem load_serialize {s : Schema} {r : Record} {pkS rkS : String}
    (hfit : SchemaFits s r) (hk : KeysOk s r pkS rkS) :
    load s (serializeRest s r ++
      [("PartitionKey", WireVal.wStr pkS), ("RowKey", WireVal.wStr rkS)]) =
      .ok { fields := r.fields, etag := r.etag, timestamp := none } := by
  have hpkres := fits_key_not_reserved hfit hk.pk
  have hpkPK : s.pkField ≠ "PartitionKey" := fun he => hpkres (by rw [he]; simp)
  have hpkRK : s.pkField ≠ "RowKey" := fun he => hpkres (by rw [he]; simp)
  have hpkTS : s.pkField ≠ "Timestamp" := fun he => hpkres (by rw [he]; simp)
  have hpkET : s.pkField ≠ "etag" := fun he => hpkres (by rw [he]; simp)
  have hA : (serializeRest s r ++
      [("PartitionKey", WireVal.wStr pkS), ("RowKey", WireVal.wStr rkS)]).lookup
      s.pkField = none := by
    rw [lookup_append_none (serializeRest_pk_none s r)]
    exact pair_lookup_none hpkPK hpkRK
  have hC : (serializeRest s r ++
      [("PartitionKey", WireVal.wStr pkS), ("RowKey", WireVal.wStr rkS)]).lookup
      "PartitionKey" = some (.wStr pkS) := by
    rw [lookup_append_none (serializeRest_PK_none hfit hk)]
    rw [List.lookup_cons]
    simp
  have hD : (serializeRest s r ++
      [("PartitionKey", WireVal.wStr pkS), ("RowKey", WireVal.wStr rkS)]).lookup
      "RowKey" = some (.wStr rkS) := by
    rw [lookup_append_none (serializeRest_RK_none hfit hk)]
    rw [List.lookup_cons]
    simp only [show (("RowKey" == "PartitionKey") = false) by decide]
    exact lookup_singleton_self _ _
  have hE := filter_serializeRest_pkrk hfit hk
  have hforall : List.Forall₂
      (fun a b => parseField
        (serializeRest s r ++ [(s.pkField, WireVal.wStr pkS)] ++
          (match s.rkField with
            | some rkf => [(rkf, WireVal.wStr rkS)]
            | none => [])) a = .ok b) s.fields r.fields :=
    (forall₂_mem hfit.align).imp fun a b hm =>
      parseField_roundtrip hfit hk hm.1.1 hm.1.2 hm.2.2
  have hETdata : (serializeRest s r ++ [(s.pkField, WireVal.wStr pkS)] ++
      (match s.rkField with
        | some rkf => [(rkf, WireVal.wStr rkS)]
        | none => [])).lookup "etag" =
      match r.etag with
      | some e => some (WireVal.wStr e)
      | none => none := by
    have h0 := serializeRest_ET hfit hk
    cases het : r.etag with
    | some e =>
      rw [het] at h0
      exact lookup_append_some (lookup_append_some h0)
    | none =>
      rw [het] at h0
      have hAB : ((serializeRest s r) ++ [(s.pkField, WireVal.wStr pkS)]).lookup "etag"
          = none := by
        rw [lookup_append_none h0]
        exact lookup_singleton_ne (Ne.symm hpkET)
      rw [lookup_append_none hAB]
      rcases hk.rk with ⟨hn, _⟩ | ⟨rkf2, hs, _, hl⟩
      · rw [hn]
        rfl
      · rw [hs]
        exact lookup_singleton_ne fun he =>
          fits_rkf_not_reserved hfit hk hs (he ▸ by simp)
  have hTSdata : (serializeRest s r ++ [(s.pkField, WireVal.wStr pkS)] ++
      (match s.rkField with
        | some rkf => [(rkf, WireVal.wStr rkS)]
        | none => [])).lookup "Timestamp" = none := by
    have hAB : ((serializeRest s r) ++ [(s.pkField, WireVal.wStr pkS)]).lookup "Timestamp"
        = none := by
      rw [lookup_append_none (serializeRest_TS_none s r)]
      exact lookup_singleton_ne (Ne.symm hpkTS)
    rw [lookup_append_none hAB]
    rcases hk.rk with ⟨hn, _⟩ | ⟨rkf2, hs, _, hl⟩
    · rw [hn]
      rfl
    · rw [hs]
      exact lookup_singleton_ne fun he =>
        fits_rkf_not_reserved hfit hk hs (he ▸ by simp)
  have hBmatch : (match s.rkField with
      | some rkf => ((serializeRest s r ++
          [("PartitionKey", WireVal.wStr pkS), ("RowKey", WireVal.wStr rkS)]).lookup
          rkf).isSome
      | none => false) = false := by
    rcases hk.rk with ⟨hn, _⟩ | ⟨rkf2, hs, hne2, hl2⟩
    · rw [hn]
    · simp only [hs]
      have hrkres := fits_key_not_reserved hfit hl2
      have hB : (serializeRest s r ++
          [("PartitionKey", WireVal.wStr pkS), ("RowKey", WireVal.wStr rkS)]).lookup
          rkf2 = none := by
        rw [lookup_append_none (serializeRest_rkf_none s r hs)]
        exact pair_lookup_none (fun he => hrkres (by rw [he]; simp))
          (fun he => hrkres (by rw [he]; simp))
      rw [hB]
      rfl
  unfold load
  rw [hA]
  rw [if_neg (by simp)]
  rw [hBmatch]
  rw [if_neg (by simp)]
  simp only [hC, hD]
  rw [hE]
  simp only [parseFields_ok hforall]
  rw [hETdata, hTSdata]
  cases r.etag <;> rfl

/-! ### Side-effect lemmas for the save/delete paths -/

theorem queueRun_queued {s : Schema} {r : Record} {v : Nat} {e : Effect}
    (h : queueRun s r v = .ok e) : e.isQueued = true := by
  unfold queueRun at h
  split at h
  · exact Except.noConfusion h
  · split at h
    · exact Except.noConfusion h
    · split at h
      · exact Except.noConfusion h
      · split at h
        · exact Except.noConfusion h
        · split at h
          · exact Except.noConfusion h
          · cases h
            rfl

theorem queue_as_needed_queued {s : Schema} {r : Record} {qe : List Effect}
    (hq : queue_as_needed s r = .ok qe) : ∀ e ∈ qe, e.isQueued = true := by
  unfold queue_as_needed at hq
  split at hq
  · cases hq
    intro e he
    exact absurd he (by simp)
  · split at hq
    · cases hq
      intro e he
      exact absurd he (by simp)
    · split at hq
      · cases hq
        intro e he
        exact absurd he (by simp)
      · split at hq
        · cases hrun : queueRun s r 30 with
          | error e2 => rw [hrun] at hq; exact Except.noConfusion hq
          | ok e0 =>
            rw [hrun] at hq
            cases hq
            intro e he
            rw [List.mem_singleton.mp he]
            exact queueRun_queued hrun
        · cases hrun : queueRun s r 5 with
          | error e2 => rw [hrun] at hq; exact Except.noConfusion hq
          | ok e0 =>
            rw [hrun] at hq
            cases hq
            intro e he
            rw [List.mem_singleton.mp he]
            exact queueRun_queued hrun

theorem stateOf_eq_some {r : Record} {nm : String} (h : stateOf r = some nm) :
    r.fields.lookup "state" = some (.fStr nm) := by
  unfold stateOf at h
  cases hl : r.fields.lookup "state" with
  | none => rw [hl] at h; exact Option.noConfusion h
  | some v =>
    rw [hl] at h
    cases v with
    | fStr s2 =>
      cases h
      rfl
    | fInt n => exact Option.noConfusion h
    | fDt d => exact Option.noConfusion h
    | fStruct j => exact Option.noConfusion h
    | fNone => exact Option.noConfusion h

theorem queueRun_ok {s : Schema} {r : Record} {pkS rkS : String}
    (hk : KeysOk s r pkS rkS)
    (hstate : (r.fields.lookup "state").isNone = false)
    (hreg : s.updateTypeRegistered = true) (v : Nat) :
    queueRun s r v = .ok (.queued pkS rkS v) := by
  unfold queueRun
  rw [hstate]
  rw [if_neg (by simp)]
  rw [hreg]
  rw [if_neg (by simp)]
  have hgk : get_keys s r = .ok (.fStr pkS,
      match s.rkField with
      | some _ => FieldVal.fStr rkS
      | none => FieldVal.fStr pkS) := by
    unfold get_keys
    rcases hk.rk with ⟨hn, hrkS⟩ | ⟨rkf, hs, hne, hl⟩
    · simp only [hk.pk, hn]
    · simp only [hk.pk, hs, hl]
  rcases hk.rk with ⟨hn, hrkS⟩ | ⟨rkf, hs, hne, hl⟩
  · subst hrkS
    rw [hn] at hgk
    simp only [hgk, resolveField]
  · rw [hs] at hgk
    simp only [hgk, resolveField]

theorem telemetry_filter_queued (s : Schema) (r : Record) :
    (telemetry_as_needed s r).filter Effect.isQueued = [] := by
  unfold telemetry_as_needed
  split
  · split
    · rfl
    · rfl
  · rfl

theorem event_filter_queued (s : Schema) (r : Record) :
    (event_as_needed s r).filter Effect.isQueued = [] := by
  unfold event_as_needed
  split
  · rfl
  · rfl

theorem filter_isQueued_effects {s : Schema} {r : Record} {qe : List Effect}
    (hq : queue_as_needed s r = .ok qe) :
    ((qe ++ telemetry_as_needed s r ++ event_as_needed s r).filter Effect.isQueued) = qe := by
  rw [List.filter_append, List.filter_append]
  rw [List.filter_eq_self.mpr (queue_as_needed_queued hq)]
  rw [telemetry_filter_queued, event_filter_queued, List.append_nil, List.append_nil]

theorem save_new_ok {s : Schema} {r : Record} {pkS rkS : String} {st : Store}
    {qe : List Effect}
    (hfit : SchemaFits s r) (hk : KeysOk s r pkS rkS)
    (hnew : st.lookupRow (pkS, rkS) = none)
    (hq : queue_as_needed s { r with etag := some st.freshEtag } = .ok qe)
    (req : Bool) :
    save s r true req st = .ok (none, { r with etag := some st.freshEtag },
      { rows := st.rows ++ [((pkS, rkS),
          (serializeRest s r ++
            [("PartitionKey", WireVal.wStr pkS), ("RowKey", WireVal.wStr rkS)],
          st.freshEtag))],
        counter := st.counter + 1 },
      qe ++ telemetry_as_needed s { r with etag := some st.freshEtag } ++
        event_as_needed s { r with etag := some st.freshEtag }) := by
  have hser := serializeRow_ok hfit hk
  have hins : insert_entity st (pkS, rkS)
      (serializeRest s r ++
        [("PartitionKey", WireVal.wStr pkS), ("RowKey", WireVal.wStr rkS)]) =
      .ok (st.freshEtag,
        { rows := st.rows ++ [((pkS, rkS),
            (serializeRest s r ++
              [("PartitionKey", WireVal.wStr pkS), ("RowKey", WireVal.wStr rkS)],
            st.freshEtag))],
          counter := st.counter + 1 }) := by
    unfold insert_entity
    rw [hnew]
  simp only [save, hser, if_true]
  simp only [hins]
  unfold saveFinish saveEffects
  simp only [hq]
  rfl

/-! ### Concrete well-formedness facts for the witnesses -/

theorem poolFits : SchemaFits poolSchema poolRec := by
  refine ⟨by decide, ?_, by decide⟩
  show List.Forall₂ _ poolSchema.fields poolRec.fields
  simp only [poolSchema, poolRec]
  exact .cons ⟨rfl, rfl⟩ (.cons ⟨rfl, rfl⟩ (.cons ⟨rfl, rfl⟩ (.cons ⟨rfl, rfl⟩
    (.cons ⟨rfl, rfl⟩ (.cons ⟨rfl, rfl⟩ .nil)))))

theorem poolKeys : KeysOk poolSchema poolRec "p1" "n1" :=
  ⟨rfl, Or.inr ⟨"name", rfl, by decide, rfl⟩⟩

theorem poolFitsStopping : SchemaFits poolSchema poolRecStopping := by
  refine ⟨by decide, ?_, by decide⟩
  show List.Forall₂ _ poolSchema.fields poolRecStopping.fields
  simp only [poolSchema, poolRecStopping]
  exact .cons ⟨rfl, rfl⟩ (.cons ⟨rfl, rfl⟩ (.cons ⟨rfl, rfl⟩ (.cons ⟨rfl, rfl⟩
    (.cons ⟨rfl, rfl⟩ (.cons ⟨rfl, rfl⟩ .nil)))))

theorem poolKeysStopping : KeysOk poolSchema poolRecStopping "p1" "n1" :=
  ⟨rfl, Or.inr ⟨"name", rfl, by decide, rfl⟩⟩

/-! ### C2: the save/load round trip -/

/-- C2 (confirmed): serializing a well-formed record via the save path
(dropping unset fields, blob-encoding structured fields, restoring
native datetimes, deriving `PartitionKey`/`RowKey` and deleting the
domain key fields and `Timestamp`) and decoding the resulting wire row
via `load` reproduces the record field-for-field; the store-managed
etag is carried through as its own column and the store-assigned
timestamp comes back unset. The key fields are required to be present
and string-valued, as they are for every record type of the
repository. -/
theorem save_load_roundtrip (s : Schema) (r : Record) (pkS rkS : String)
    (hfit : SchemaFits s r) (hk : KeysOk s r pkS rkS) :
    ∃ row, serialize s r = .ok row ∧
      load s row = .ok { fields := r.fields, etag := r.etag, timestamp := none } :=
  ⟨_, serialize_ok hfit hk, load_serialize hfit hk⟩

/-- C2 witness: the round trip evaluated on a concrete record with
string, structured, integer and datetime fields. -/
theorem save_load_roundtrip_witness :
    ∃ row, serialize poolSchema poolRec = .ok row ∧
      load poolSchema row =
        .ok { fields := poolRec.fields, etag := poolRec.etag, timestamp := none } :=
  save_load_roundtrip poolSchema poolRec "p1" "n1" poolFits poolKeys

/-! ### C3: key immutability across saves -/

/-- C3 (confirmed): two save calls on records of the same type that
agree on the declared key fields (and may differ in every non-key
field) derive identical `PartitionKey`/`RowKey` strings, and both
serialized payloads have the domain key fields deleted. -/
theorem save_keys_immutable (s : Schema) (r1 r2 : Record) (pkS rkS : String)
    (hfit1 : SchemaFits s r1) (hk1 : KeysOk s r1 pkS rkS)
    (hfit2 : SchemaFits s r2) (hk2 : KeysOk s r2 pkS rkS) :
    serializeRow s r1 = .ok (pkS, rkS, serializeRest s r1) ∧
    serializeRow s r2 = .ok (pkS, rkS, serializeRest s r2) ∧
    (serializeRest s r1).lookup s.pkField = none ∧
    (serializeRest s r2).lookup s.pkField = none ∧
    (∀ rkf, s.rkField = some rkf →
      (serializeRest s r1).lookup rkf = none ∧
      (serializeRest s r2).lookup rkf = none) :=
  ⟨serializeRow_ok hfit1 hk1, serializeRow_ok hfit2 hk2,
   serializeRest_pk_none s r1, serializeRest_pk_none s r2,
   fun _ h => ⟨serializeRest_rkf_none s r1 h, serializeRest_rkf_none s r2 h⟩⟩

/-- C3 witness: two concrete records differing only in their `state`
field serialize to the same store keys. -/
theorem save_keys_immutable_witness :
    serializeRow poolSchema poolRec = .ok ("p1", "n1", serializeRest poolSchema poolRec) ∧
    serializeRow poolSchema poolRecStopping =
      .ok ("p1", "n1", serializeRest poolSchema poolRecStopping) ∧
    (serializeRest poolSchema poolRec).lookup poolSchema.pkField = none ∧
    (serializeRest poolSchema poolRecStopping).lookup poolSchema.pkField = none ∧
    (∀ rkf, poolSchema.rkField = some rkf →
      (serializeRest poolSchema poolRec).lookup rkf = none ∧
      (serializeRest poolSchema poolRecStopping).lookup rkf = none) :=
  save_keys_immutable poolSchema poolRec poolRecStopping "p1" "n1"
    poolFits poolKeys poolFitsStopping poolKeysStopping

/-! ### C1: conflict handling in save -/

/-- C1 counterexample: the claim asserts that a conditional replace
(`new=false`, etag present, `require_etag=true`) whose token no longer
matches the row returns a structured Conflict error rather than
raising; in fact `save` only guards the insert branch, and the stale
replace raises the store's conflict exception. -/
theorem save_stale_etag_raises_cex :
    save poolSchema poolRec false true
      { rows := [(("p1", "n1"), ([], "t9"))], counter := 0 } =
      .error .azureConflict := by
  rfl

/-- C1 (corrected): an insert (`new=true`) on an existing key returns
the structured `UNABLE_TO_CREATE` error value (never raises), while a
conditional replace (`new=false`, non-empty etag, `require_etag=true`)
whose token no longer matches the stored row raises the store's
conflict exception, which propagates out of `save` instead of being
returned as a structured error. -/
theorem save_conflict_dispatch (s : Schema) (r : Record) (pkS rkS : String)
    (st : Store) (hfit : SchemaFits s r) (hk : KeysOk s r pkS rkS)
    (hexist : (st.lookupRow (pkS, rkS)).isSome = true) :
    (∀ req, save s r true req st =
      .ok (some { code := .UNABLE_TO_CREATE, errors := ["row exists"] }, r, st, [])) ∧
    (∀ e rowdata stored, r.etag = some e → e ≠ "" →
      st.lookupRow (pkS, rkS) = some (rowdata, stored) → stored ≠ e →
      save s r false true st = .error .azureConflict) := by
  have hser := serializeRow_ok hfit hk
  constructor
  · intro req
    obtain ⟨v, hv⟩ := Option.isSome_iff_exists.mp hexist
    have hins : insert_entity st (pkS, rkS)
        (serializeRest s r ++
          [("PartitionKey", WireVal.wStr pkS), ("RowKey", WireVal.wStr rkS)]) =
        .error .azureConflict := by
      unfold insert_entity
      rw [hv]
    simp only [save, hser, if_true, hins]
  · intro e rowdata stored he hne hrow hstored
    have hrep : replace_entity st (pkS, rkS)
        (serializeRest s r ++
          [("PartitionKey", WireVal.wStr pkS), ("RowKey", WireVal.wStr rkS)]) e =
        .error .azureConflict := by
      unfold replace_entity
      simp only [hrow]
      rw [if_neg hstored]
    have htr : (etagTruthy r.etag && true) = true := by
      rw [he]
      simp [etagTruthy, hne]
    simp only [save, hser, he]
    rw [if_neg (by simp)]
    rw [if_pos (by simp [etagTruthy, hne])]
    simp only [hrep]

/-- C1 witness: a concrete store holding the record's key with a
different token; the insert path returns the structured error, the
conditional replace raises. -/
theorem save_conflict_dispatch_witness :
    ((Store.lookupRow { rows := [(("p1", "n1"), ([], "t9"))], counter := 0 }
      ("p1", "n1")).isSome = true) ∧
    save poolSchema poolRec true false
      { rows := [(("p1", "n1"), ([], "t9"))], counter := 0 } =
      .ok (some { code := .UNABLE_TO_CREATE, errors := ["row exists"] }, poolRec,
        { rows := [(("p1", "n1"), ([], "t9"))], counter := 0 }, []) ∧
    save poolSchema poolRec false true
      { rows := [(("p1", "n1"), ([], "t9"))], counter := 0 } =
      .error .azureConflict :=
  ⟨rfl,
   (save_conflict_dispatch poolSchema poolRec "p1" "n1"
      { rows := [(("p1", "n1"), ([], "t9"))], counter := 0 }
      poolFits poolKeys rfl).1 false,
   (save_conflict_dispatch poolSchema poolRec "p1" "n1"
      { rows := [(("p1", "n1"), ([], "t9"))], counter := 0 }
      poolFits poolKeys rfl).2 "t1" [] "t9" rfl (by decide) rfl (by decide)⟩

/-! ### C7: dashboard and telemetry pushes on save -/

theorem isEmpty_true_eq {α : Type} {l : List α} (h : l.isEmpty = true) : l = [] := by
  cases l
  · rfl
  · exact absurd h (by simp)

theorem dashboard_mem_event_iff (s : Schema) (r : Record) :
    (Effect.dashboard s.tableName ∈ event_as_needed s r) ↔ eventData s r ≠ [] := by
  unfold event_as_needed
  by_cases h : (eventData s r).isEmpty
  · rw [if_pos h]
    simp [isEmpty_true_eq h]
  · rw [if_neg h]
    constructor
    · intro _ hceq
      exact h (by rw [hceq]; rfl)
    · intro _
      exact List.mem_singleton.mpr rfl

theorem telemetry_mem_iff (s : Schema) (r : Record) :
    (Effect.telemetryPush s.tableName ∈ telemetry_as_needed s r) ↔
      (s.inTelemetryCatalog = true ∧ telemetryData s r ≠ []) := by
  unfold telemetry_as_needed
  by_cases hc : s.inTelemetryCatalog
  · rw [if_pos hc]
    by_cases h : (telemetryData s r).isEmpty
    · rw [if_pos h]
      simp [isEmpty_true_eq h]
    · rw [if_neg h]
      constructor
      · intro _
        exact ⟨hc, fun hceq => h (by rw [hceq]; rfl)⟩
      · intro _
        exact List.mem_singleton.mpr rfl
  · rw [if_neg hc]
    simp [hc]

theorem dashboard_not_mem_telemetry (s : Schema) (r : Record) :
    Effect.dashboard s.tableName ∉ telemetry_as_needed s r := by
  unfold telemetry_as_needed
  split
  · split
    · simp
    · simp
  · simp

theorem telemetry_not_mem_event (s : Schema) (r : Record) :
    Effect.telemetryPush s.tableName ∉ event_as_needed s r := by
  unfold event_as_needed
  split
  · simp
  · simp

/-- C7 (corrected): on a successful save, the event projection is
pushed to the dashboard channel if and only if it is non-empty — the
push is not unconditional, `_event_as_needed` returns without pushing
when the projection is empty (as it is for every type leaving the
default empty `event_include()`); the telemetry projection is pushed
iff the record type is in the telemetry catalog and the projection is
non-empty. -/
theorem save_event_telemetry_gating (s : Schema) (r : Record) (pkS rkS : String)
    (st : Store) (qe : List Effect)
    (hfit : SchemaFits s r) (hk : KeysOk s r pkS rkS)
    (hnew : st.lookupRow (pkS, rkS) = none)
    (hq : queue_as_needed s { r with etag := some st.freshEtag } = .ok qe) :
    ∃ r2 st2 effs, save s r true false st = .ok (none, r2, st2, effs) ∧
      ((Effect.dashboard s.tableName ∈ effs) ↔ eventData s r ≠ []) ∧
      ((Effect.telemetryPush s.tableName ∈ effs) ↔
        (s.inTelemetryCatalog = true ∧ telemetryData s r ≠ [])) := by
  refine ⟨_, _, _, save_new_ok hfit hk hnew hq false, ?_, ?_⟩
  · have hnotq : Effect.dashboard s.tableName ∉ qe := fun hmem => by
      have hq2 := queue_as_needed_queued hq _ hmem
      exact absurd hq2 (by simp [Effect.isQueued])
    constructor
    · intro hmem
      rcases List.mem_append.mp hmem with h | h
      · rcases List.mem_append.mp h with h2 | h2
        · exact absurd h2 hnotq
        · exact absurd h2 (dashboard_not_mem_telemetry s _)
      · exact (dashboard_mem_event_iff s _).mp h
    · intro hne2
      exact List.mem_append.mpr (Or.inr ((dashboard_mem_event_iff s _).mpr hne2))
  · have hnotq : Effect.telemetryPush s.tableName ∉ qe := fun hmem => by
      have hq2 := queue_as_needed_queued hq _ hmem
      exact absurd hq2 (by simp [Effect.isQueued])
    constructor
    · intro hmem
      rcases List.mem_append.mp hmem with h | h
      · rcases List.mem_append.mp h with h2 | h2
        · exact absurd h2 hnotq
        · exact (telemetry_mem_iff s _).mp h2
      · exact absurd h (telemetry_not_mem_event s _)
    · intro hpair
      exact List.mem_append.mpr
        (Or.inl (List.mem_append.mpr (Or.inr ((telemetry_mem_iff s _).mpr hpair))))

/-- C7 counterexample: a record type with the default empty
`event_include()` saves successfully and pushes nothing to the
dashboard channel, contradicting the claim that the event projection
is pushed for every record regardless of emptiness. -/
theorem save_no_event_push_cex :
    (save quietSchema poolRec true false { rows := [], counter := 0 }).map
      (fun t => (t.1, t.2.2.2)) =
      .ok (none, [Effect.queued "p1" "n1" 5]) := by
  rfl

/-- C7 witness: a record type with non-empty event and telemetry
projections, present in the telemetry catalog; both pushes fire. -/
theorem save_event_telemetry_gating_witness :
    Store.lookupRow { rows := [], counter := 0 } ("p1", "n1") = none ∧
    (∃ r2 st2 effs, save poolSchema poolRec true false { rows := [], counter := 0 } =
      .ok (none, r2, st2, effs) ∧
      ((Effect.dashboard poolSchema.tableName ∈ effs) ↔
        eventData poolSchema poolRec ≠ []) ∧
      ((Effect.telemetryPush poolSchema.tableName ∈ effs) ↔
        (poolSchema.inTelemetryCatalog = true ∧
          telemetryData poolSchema poolRec ≠ []))) :=
  ⟨rfl, save_event_telemetry_gating poolSchema poolRec "p1" "n1"
    { rows := [], counter := 0 } [.queued "p1" "n1" 5]
    poolFits poolKeys rfl rfl⟩

/-! ### C8: state-triggered queue dispatch -/

/-- C8 (confirmed): after a successful save, no follow-up message is
enqueued when the record has no work-state (or its enum type declares
no `needs_work`), none when the state is outside the type's
needs-work set, and exactly one otherwise — with a 30-second
visibility delay for the stopping/shutdown states
(`stopping`/`stop`/`shutdown`) and a 5-second delay for every other
pending state. -/
theorem save_queue_gating (s : Schema) (r : Record) (pkS rkS : String) (st : Store)
    (hfit : SchemaFits s r) (hk : KeysOk s r pkS rkS)
    (hnew : st.lookupRow (pkS, rkS) = none)
    (hreg : s.updateTypeRegistered = true) :
    (stateOf r = none →
      ∃ r2 st2 effs, save s r true false st = .ok (none, r2, st2, effs) ∧
        effs.filter Effect.isQueued = []) ∧
    (∀ nm, stateOf r = some nm → s.stateNeedsWork = none →
      ∃ r2 st2 effs, save s r true false st = .ok (none, r2, st2, effs) ∧
        effs.filter Effect.isQueued = []) ∧
    (∀ nm nw, stateOf r = some nm → s.stateNeedsWork = some nw →
      nw.contains nm = false →
      ∃ r2 st2 effs, save s r true false st = .ok (none, r2, st2, effs) ∧
        effs.filter Effect.isQueued = []) ∧
    (∀ nm nw, stateOf r = some nm → s.stateNeedsWork = some nw →
      nw.contains nm = true →
      ∃ r2 st2 effs, save s r true false st = .ok (none, r2, st2, effs) ∧
        effs.filter Effect.isQueued =
          [.queued pkS rkS
            (if (["stopping", "stop", "shutdown"] : List String).contains nm
             then 30 else 5)]) := by
  have hk2 : KeysOk s { r with etag := some st.freshEtag } pkS rkS := ⟨hk.pk, hk.rk⟩
  refine ⟨?_, ?_, ?_, ?_⟩
  · intro hst
    have hst2 : stateOf { r with etag := some st.freshEtag } = none := hst
    have hq : queue_as_needed s { r with etag := some st.freshEtag } = .ok [] := by
      unfold queue_as_needed
      rw [hst2]
    exact ⟨_, _, _, save_new_ok hfit hk hnew hq false, filter_isQueued_effects hq⟩
  · intro nm hst hnw
    have hst2 : stateOf { r with etag := some st.freshEtag } = some nm := hst
    have hq : queue_as_needed s { r with etag := some st.freshEtag } = .ok [] := by
      unfold queue_as_needed
      simp only [hst2, hnw]
    exact ⟨_, _, _, save_new_ok hfit hk hnew hq false, filter_isQueued_effects hq⟩
  · intro nm nw hst hnw hcont
    have hst2 : stateOf { r with etag := some st.freshEtag } = some nm := hst
    have hq : queue_as_needed s { r with etag := some st.freshEtag } = .ok [] := by
      unfold queue_as_needed
      simp only [hst2, hnw, hcont, if_true]
    exact ⟨_, _, _, save_new_ok hfit hk hnew hq false, filter_isQueued_effects hq⟩
  · intro nm nw hst hnw hcont
    have hst2 : stateOf { r with etag := some st.freshEtag } = some nm := hst
    have hstate2 : (({ r with etag := some st.freshEtag } : Record).fields.lookup
        "state").isNone = false := by
      have := stateOf_eq_some hst2
      rw [this]
      rfl
    have hrun : ∀ v, queueRun s { r with etag := some st.freshEtag } v =
        .ok (.queued pkS rkS v) := fun v => queueRun_ok hk2 hstate2 hreg v
    have hmem : nm ∈ nw := by
      simpa using hcont
    cases hstop : (["stopping", "stop", "shutdown"] : List String).contains nm with
    | true =>
      have hstop2 : nm = "stopping" ∨ nm = "stop" ∨ nm = "shutdown" := by
        simpa using hstop
      have hq : queue_as_needed s { r with etag := some st.freshEtag } =
          .ok [.queued pkS rkS 30] := by
        unfold queue_as_needed
        simp [hst2, hnw, hmem, hstop2, hrun]
        rfl
      exact ⟨_, _, _, save_new_ok hfit hk hnew hq false, by
        rw [filter_isQueued_effects hq]
        rfl⟩
    | false =>
      have hstop2 : ¬(nm = "stopping" ∨ nm = "stop" ∨ nm = "shutdown") := by
        simpa using hstop
      have hq : queue_as_needed s { r with etag := some st.freshEtag } =
          .ok [.queued pkS rkS 5] := by
        unfold queue_as_needed
        simp [hst2, hnw, hmem, hstop2, hrun]
        rfl
      exact ⟨_, _, _, save_new_ok hfit hk hnew hq false, by
        rw [filter_isQueued_effects hq]
        rfl⟩

/-- C8 witness: a record in the pending `init` state enqueues exactly
one follow-up message with the short (5-second) delay. -/
theorem save_queue_gating_witness :
    ∃ r2 st2 effs, save poolSchema poolRec true false { rows := [], counter := 0 } =
      .ok (none, r2, st2, effs) ∧
      effs.filter Effect.isQueued =
        [.queued "p1" "n1"
          (if (["stopping", "stop", "shutdown"] : List String).contains "init"
           then 30 else 5)] :=
  (save_queue_gating poolSchema poolRec "p1" "n1" { rows := [], counter := 0 }
    poolFits poolKeys rfl rfl).2.2.2 "init" ["init", "stopping", "shutdown"]
    rfl rfl rfl

/-! ### C9: delete ordering, idempotence and event gating -/

theorem get_keys_ok {s : Schema} {r : Record} {pkS rkS : String}
    (hk : KeysOk s r pkS rkS) :
    get_keys s r = .ok (.fStr pkS,
      match s.rkField with
      | some _ => FieldVal.fStr rkS
      | none => FieldVal.fStr pkS) := by
  unfold get_keys
  rcases hk.rk with ⟨hn, hrkS⟩ | ⟨rkf, hs, hne, hl⟩
  · simp only [hk.pk, hn]
  · simp only [hk.pk, hs, hl]

/-- C9 (corrected): `delete` computes the dashboard event before the
store delete and returns it with the result; the event fires exactly
once when the record's event projection is non-empty and never when
it is empty (in particular never for types with the default empty
`event_include()`); a delete whose row is already absent swallows the
not-found failure and returns successfully, and a present row is
removed. -/
theorem delete_event_gating (s : Schema) (r : Record) (pkS rkS : String) (st : Store)
    (hk : KeysOk s r pkS rkS) :
    (st.lookupRow (pkS, rkS) = none →
      delete s r st = .ok (st, event_as_needed s r)) ∧
    (∀ rowdata etag0, st.lookupRow (pkS, rkS) = some (rowdata, etag0) →
      delete s r st = .ok
        ({ rows := st.rows.filter fun en => en.1 ≠ (pkS, rkS), counter := st.counter },
          event_as_needed s r)) ∧
    (eventData s r = [] → event_as_needed s r = []) ∧
    (eventData s r ≠ [] → event_as_needed s r = [.dashboard s.tableName]) := by
  have hgk := get_keys_ok hk
  have hres : (match delete_entity st (pkS, rkS) with
      | .ok st2 => (.ok (st2, event_as_needed s r) :
          Except PyExn (Store × List Effect))
      | .error .azureMissing => .ok (st, event_as_needed s r)
      | .error e => .error e) = delete s r st := by
    rcases hk.rk with ⟨hn, hrkS⟩ | ⟨rkf, hs, hne, hl⟩
    · subst hrkS
      rw [hn] at hgk
      unfold delete
      simp only [hgk, resolveField]
    · rw [hs] at hgk
      unfold delete
      simp only [hgk, resolveField]
  refine ⟨?_, ?_, ?_, ?_⟩
  · intro habsent
    rw [← hres]
    unfold delete_entity
    rw [habsent]
  · intro rowdata etag0 hpresent
    rw [← hres]
    unfold delete_entity
    rw [hpresent]
  · intro hemp
    unfold event_as_needed
    rw [if_pos (by rw [hemp]; rfl)]
  · intro hne2
    unfold event_as_needed
    rw [if_neg (fun h => hne2 (isEmpty_true_eq h))]

/-- C9 counterexample: the claim asserts the pre-delete dashboard
event is emitted exactly once for every record; with the default empty
`event_include()` the projection is empty and `delete` emits no event
at all (the absent row is still swallowed and the call succeeds). -/
theorem delete_no_event_cex :
    delete quietSchema poolRec { rows := [], counter := 0 } =
      .ok ({ rows := [], counter := 0 }, []) := by
  rfl

/-- C9 witness: a record with a non-empty event projection; deleting
its absent row succeeds and carries exactly one dashboard event. -/
theorem delete_event_gating_witness :
    delete poolSchema poolRec { rows := [], counter := 0 } =
      .ok ({ rows := [], counter := 0 }, event_as_needed poolSchema poolRec) ∧
    event_as_needed poolSchema poolRec = [.dashboard poolSchema.tableName] :=
  ⟨(delete_event_gating poolSchema poolRec "p1" "n1" { rows := [], counter := 0 }
      poolKeys).1 rfl,
   (delete_event_gating poolSchema poolRec "p1" "n1" { rows := [], counter := 0 }
      poolKeys).2.2.2 (fun h => List.noConfusion h)⟩

/-- C4 witness: a free-text list (first element neither integer nor
enum, not uniformly safe) on a known non-key field is deferred to the
residual filters under its own name, and compilation succeeds. -/
theorem build_filters_residual_witness :
    demoSchema.pyFields.contains "freeText" = true ∧
    build_filters demoSchema (some [("freeText", [.qStr "a b"])]) =
      .ok (none, [(storeFieldName demoSchema "freeText", [.qStr "a b"])]) :=
  ⟨by decide,
   (build_filters_residual demoSchema "freeText" [.qStr "a b"] (.qStr "a b")
      (by decide) rfl).1 ⟨rfl, rfl, by decide⟩⟩

end Onefuzz
